import Mathlib

/-!
Verification development for the machina RL library sample
(src/example/run_mpc.py, src/example/run_trpo.py,
src/machina/vfuncs/state_action_vfuncs/base.py).

The shallow embedding models tensors as a shape list plus flat data,
episodes as records of per-timestep rational sequences, and the
run_mpc aggregation loop as a step function on an explicit state
record mirroring the script's loop variables.
-/

namespace MachinaSpec

/-! ### Tensors and BaseSAVfunc (src/machina/vfuncs/state_action_vfuncs/base.py) -/

/-- A tensor: its shape and its (layout-independent) flat data.
`unsqueeze(0)` prepends a singleton dimension and leaves data untouched. -/
structure Tensor where
  shape : List Nat
  data : List ℚ
deriving DecidableEq

/-- torch's `t.unsqueeze(0)`. -/
def Tensor.unsqueeze0 (t : Tensor) : Tensor :=
  ⟨1 :: t.shape, t.data⟩

/-- State of `BaseSAVfunc` (base.py lines 22-34). `N` abstracts the torch
network module, `H` the rnn hidden-state value. `dp_net` is present exactly
when `data_parallel` was set at construction. -/
structure BaseSAVfunc (N H : Type) where
  ob_space : List Nat
  ac_space : List Nat
  net : N
  rnn : Bool
  hs : Option H
  data_parallel : Bool
  dp_net : Option N
  dp_run : Bool

/-- base.py lines 36-41: `reset` clears the rnn hidden state; it is a
no-op for feed-forward (rnn=False) instances. -/
def BaseSAVfunc.reset {N H : Type} (f : BaseSAVfunc N H) : BaseSAVfunc N H :=
  if f.rnn then { f with hs := none } else f

/-- base.py lines 43-54: `_check_obs_shape`. If the input's rank is below
`additional_shape + len(ob_space.shape)` (additional_shape = 2 when rnn else 1),
unsqueeze dimension 0 exactly `threshold - rank` times (the Python `range` is
evaluated once, on the original rank); otherwise return the input unchanged. -/
def BaseSAVfunc.check_obs_shape {N H : Type} (f : BaseSAVfunc N H) (obs : Tensor) : Tensor :=
  let additional_shape := if f.rnn then 2 else 1
  if obs.shape.length < additional_shape + f.ob_space.length then
    Tensor.unsqueeze0^[additional_shape + f.ob_space.length - obs.shape.length] obs
  else obs

/-- base.py lines 56-67: `_check_acs_shape`, identical to `_check_obs_shape`
but against `ac_space`. -/
def BaseSAVfunc.check_acs_shape {N H : Type} (f : BaseSAVfunc N H) (acs : Tensor) : Tensor :=
  let additional_shape := if f.rnn then 2 else 1
  if acs.shape.length < additional_shape + f.ac_space.length then
    Tensor.unsqueeze0^[additional_shape + f.ac_space.length - acs.shape.length] acs
  else acs

theorem unsqueeze0_iterate (k : Nat) (t : Tensor) :
    Tensor.unsqueeze0^[k] t = ⟨List.replicate k 1 ++ t.shape, t.data⟩ := by
  induction k with
  | zero => rfl
  | succ n ih =>
      rw [Function.iterate_succ_apply', ih]
      rfl

/-! ### Episode transforms (machina.traj.epi_functional, called from
src/example/run_mpc.py lines 125-128 and 169-172; the module itself is
not under src/, so these are modelled from the spec) -/

/-- Modelled from the spec: `ef.add_next_obs` (machina.traj.epi_functional,
not in src/). The `next_obs` sequence is `obs` shifted one step forward, with
the final timestep's entry a repeat of the last observation. -/
def add_next_obs {α : Type} (obs : List α) : List α :=
  match obs with
  | [] => []
  | x :: xs => xs ++ [(x :: xs).getLastD x]

/-- Modelled from the spec: `ef.compute_h_masks` (machina.traj.epi_functional,
not in src/). For an episode of length `L`, timestep `i` gets mask 1 when
`i + horizon ≤ L` and 0 otherwise. -/
def compute_h_masks (horizon L : Nat) : List ℚ :=
  (List.range L).map (fun i => if i + horizon ≤ L then (1 : ℚ) else 0)

/-- An episode record: per-timestep sequences for each field, with scalar
observation/action entries. `next_obs` and `h_masks` start empty and are
filled by the transforms. -/
structure Epi where
  obs : List ℚ
  acs : List ℚ
  rews : List ℚ
  next_obs : List ℚ
  h_masks : List ℚ
deriving DecidableEq

/-- Episode-level `ef.add_next_obs`: fills the `next_obs` field. -/
def Epi.addNextObs (e : Epi) : Epi :=
  { e with next_obs := add_next_obs e.obs }

/-- Episode-level `ef.compute_h_masks`: fills the `h_masks` field from the
episode length. -/
def Epi.computeHMasks (horizon : Nat) (e : Epi) : Epi :=
  { e with h_masks := compute_h_masks horizon e.obs.length }

/-- Modelled from the spec: `ef.normalize_obs_and_acs` (machina.traj.
epi_functional, not in src/) in its given-statistics form: applies
`(x - mean) / std` with the supplied statistics, recomputing nothing
(run_mpc.py line 127: obs, next_obs and acs are the normalized fields). -/
def Epi.normalize (mean_obs std_obs mean_acs std_acs : ℚ) (e : Epi) : Epi :=
  { e with
    obs := e.obs.map (fun x => (x - mean_obs) / std_obs)
    next_obs := e.next_obs.map (fun x => (x - mean_obs) / std_obs)
    acs := e.acs.map (fun x => (x - mean_acs) / std_acs) }

/-! ### GAE (machina.data.GAEData.preprocess, called from
src/example/run_trpo.py lines 90-91; not under src/, modelled from spec) -/

/-- One GAE timestep: the reward, the fitted values `V(obs[t])` and
`V(obs[t+1])`, and the terminal flag. -/
structure GAEStep where
  rew : ℚ
  v : ℚ
  vnext : ℚ
  done : Bool
deriving DecidableEq

/-- Modelled from the spec: the per-episode backward recursion of
`GAEData.preprocess` (machina.data, not in src/), before optional centering:
`delta[t] = rew[t] + gamma * V(obs[t+1]) * (1 - done[t]) - V(obs[t])`,
`adv[t] = delta[t] + gamma * lambda * adv[t+1] * (1 - done[t])`, with the
advantage after the last step taken as 0. -/
def gae_advs (gamma lam : ℚ) : List GAEStep → List ℚ
  | [] => []
  | st :: rest =>
      let tl := gae_advs gamma lam rest
      let nd : ℚ := if st.done then 0 else 1
      let delta := st.rew + gamma * st.vnext * nd - st.v
      (delta + gamma * lam * tl.headD 0 * nd) :: tl

/-- Modelled from the spec: `return[t] = adv[t] + V(obs[t])`. -/
def gae_rets (gamma lam : ℚ) (epi : List GAEStep) : List ℚ :=
  List.zipWith (fun a v => a + v) (gae_advs gamma lam epi) (epi.map GAEStep.v)

/-! ### The run_mpc aggregation loop (src/example/run_mpc.py lines 150-199) -/

/-- The live variables of the run_mpc train loop. The four statistics come
from the single `ef.normalize_obs_and_acs(traj)` call on the initial dataset
(line 128); the loop body reads them and never rebinds them. `best_saves`
records the (1-indexed) iterations at which the `dm_max.pkl` checkpoint was
written (lines 186-191), the observable effect of the best-checkpoint save. -/
structure MpcState where
  traj : List Epi
  mean_obs : ℚ
  std_obs : ℚ
  mean_acs : ℚ
  std_acs : ℚ
  total_epi : Nat
  total_step : Nat
  counter_agg_iters : Nat
  max_rew : ℚ
  best_saves : List Nat
deriving DecidableEq

/-- run_mpc.py lines 169-172: the pipeline applied to the freshly sampled
episodes — add next_obs, compute h_masks, then normalize with the supplied
(initial) statistics. -/
def mpcProcessEpis (mean_obs std_obs mean_acs std_acs : ℚ) (horizon : Nat)
    (epis : List Epi) : List Epi :=
  ((epis.map Epi.addNextObs).map (Epi.computeHMasks horizon)).map
    (Epi.normalize mean_obs std_obs mean_acs std_acs)

/-- One iteration of the run_mpc train loop (lines 156-198). `sample k` is
the batch of episodes the external sampler returns at iteration `k`
(0-indexed). Line 171 rebinds `traj` to the result of
`ef.normalize_obs_and_acs(curr_traj, ...)`; normalization is in place (spec
4.2), so `traj` and `curr_traj` are then the same trajectory and line 174's
`traj.add_traj(curr_traj)` appends that trajectory's episodes to itself,
yielding `curr ++ curr`. The previously accumulated `traj` is discarded. -/
def mpcIter (horizon : Nat) (sample : Nat → List Epi) (s : MpcState) : MpcState :=
  let epis := sample s.counter_agg_iters
  let curr := mpcProcessEpis s.mean_obs s.std_obs s.mean_acs s.std_acs horizon epis
  let newTraj := curr ++ curr
  let rewards := epis.map (fun e => e.rews.sum)
  let mean_rew := rewards.sum / (rewards.length : ℚ)
  let isBest := s.max_rew < mean_rew
  { s with
    traj := newTraj
    total_epi := s.total_epi + curr.length
    total_step := s.total_step + (curr.map (fun e => e.rews.length)).sum
    max_rew := if isBest then mean_rew else s.max_rew
    best_saves := if isBest then s.best_saves ++ [s.counter_agg_iters + 1] else s.best_saves
    counter_agg_iters := s.counter_agg_iters + 1 }

/-- The state right before the train loop (lines 121-154): the processed and
registered initial dataset, the statistics computed once from it, zeroed
counters, and `max_rew = -1e-6` (line 154). -/
def mpcInit (initTraj : List Epi) (mean_obs std_obs mean_acs std_acs : ℚ) : MpcState :=
  { traj := initTraj
    mean_obs := mean_obs
    std_obs := std_obs
    mean_acs := mean_acs
    std_acs := std_acs
    total_epi := 0
    total_step := 0
    counter_agg_iters := 0
    max_rew := -(1 / 1000000)
    best_saves := [] }

theorem mpcIter_counter (horizon : Nat) (sample : Nat → List Epi) (s : MpcState) :
    (mpcIter horizon sample s).counter_agg_iters = s.counter_agg_iters + 1 := rfl

/-- The `while args.num_aggregation_iters > counter_agg_iters` loop
(lines 155-198) as a recursive function on the loop state. -/
def mpcLoop (horizon : Nat) (sample : Nat → List Epi) (iters : Nat)
    (s : MpcState) : MpcState :=
  if s.counter_agg_iters < iters then
    mpcLoop horizon sample iters (mpcIter horizon sample s)
  else s
termination_by iters - s.counter_agg_iters
decreasing_by
  rw [mpcIter_counter]
  omega

/-! ### Claim theorems -/

/-- C10: for a feed-forward (`rnn = false`) `BaseSAVfunc`, `reset()` changes
nothing at all; for `rnn = true` it sets `hs` to `none` and leaves every other
attribute untouched. -/
theorem claim_C10_reset_frame {N H : Type} (f : BaseSAVfunc N H) :
    (f.rnn = false → f.reset = f) ∧
    (f.rnn = true → f.reset = { f with hs := none }) := by
  constructor <;> intro h <;> simp [BaseSAVfunc.reset, h]

/-- A concrete feed-forward instance. -/
def vfFF : BaseSAVfunc Unit Unit := ⟨[3], [2], (), false, none, false, none, false⟩

/-- A concrete recurrent instance. -/
def vfRNN : BaseSAVfunc Unit Unit := ⟨[3], [2], (), true, some (), false, none, false⟩

/-- C10 witness at the concrete instances. -/
theorem claim_C10_reset_frame_witness :
    vfFF.reset = vfFF ∧ vfRNN.reset = { vfRNN with hs := none } :=
  ⟨(claim_C10_reset_frame vfFF).1 rfl, (claim_C10_reset_frame vfRNN).2 rfl⟩

/-- C9: `_check_obs_shape` (resp. `_check_acs_shape`) returns its input
unchanged when the rank already reaches `len(space.shape) + 1` (feed-forward)
or `+ 2` (recurrent), and otherwise prepends leading singleton dimensions,
leaving the data untouched, until the rank equals that threshold (the result's
rank is `max threshold rank`); being a total function into `Tensor`, it raises
nothing. -/
theorem claim_C9_check_shape_total {N H : Type} (f : BaseSAVfunc N H) (t u : Tensor) :
    (f.check_obs_shape t =
      if t.shape.length < (if f.rnn then 2 else 1) + f.ob_space.length then
        ⟨List.replicate ((if f.rnn then 2 else 1) + f.ob_space.length - t.shape.length) 1
            ++ t.shape, t.data⟩
      else t) ∧
    (f.check_obs_shape t).shape.length
      = max ((if f.rnn then 2 else 1) + f.ob_space.length) t.shape.length ∧
    (f.check_acs_shape u =
      if u.shape.length < (if f.rnn then 2 else 1) + f.ac_space.length then
        ⟨List.replicate ((if f.rnn then 2 else 1) + f.ac_space.length - u.shape.length) 1
            ++ u.shape, u.data⟩
      else u) ∧
    (f.check_acs_shape u).shape.length
      = max ((if f.rnn then 2 else 1) + f.ac_space.length) u.shape.length := by
  have hobs : f.check_obs_shape t =
      if t.shape.length < (if f.rnn then 2 else 1) + f.ob_space.length then
        ⟨List.replicate ((if f.rnn then 2 else 1) + f.ob_space.length - t.shape.length) 1
            ++ t.shape, t.data⟩
      else t := by
    unfold BaseSAVfunc.check_obs_shape
    split <;> simp [unsqueeze0_iterate]
  have hacs : f.check_acs_shape u =
      if u.shape.length < (if f.rnn then 2 else 1) + f.ac_space.length then
        ⟨List.replicate ((if f.rnn then 2 else 1) + f.ac_space.length - u.shape.length) 1
            ++ u.shape, u.data⟩
      else u := by
    unfold BaseSAVfunc.check_acs_shape
    split <;> simp [unsqueeze0_iterate]
  have key : ∀ (thr : Nat) (w : Tensor),
      ((if w.shape.length < thr then
          (⟨List.replicate (thr - w.shape.length) 1 ++ w.shape, w.data⟩ : Tensor)
        else w)).shape.length = max thr w.shape.length := by
    intro thr w
    by_cases hc : w.shape.length < thr
    · simp only [if_pos hc, List.length_append, List.length_replicate]
      omega
    · simp only [if_neg hc]
      omega
  refine ⟨hobs, ?_, hacs, ?_⟩
  · rw [hobs]; exact key _ t
  · rw [hacs]; exact key _ u

/-- C7: for a single-step episode with reward `r` and `done = true`, the GAE
recursion (before optional centering) yields advantage `r - V(obs[0])`, with no
propagation from any next step, and return `r`. -/
theorem claim_C7_gae_single_step (gamma lam r v0 vn : ℚ) :
    gae_advs gamma lam [⟨r, v0, vn, true⟩] = [r - v0] ∧
    gae_rets gamma lam [⟨r, v0, vn, true⟩] = [r] := by
  refine ⟨?_, ?_⟩ <;> simp [gae_advs, gae_rets]

/-- C6: `add_next_obs` keeps the sequence length, shifts every non-final
entry (`next_obs[i] = obs[i+1]`), and repeats the final observation at the
final timestep, so it is never undefined. -/
theorem claim_C6_add_next_obs {α : Type} (obs : List α) :
    (add_next_obs obs).length = obs.length ∧
    (∀ i, i + 1 < obs.length → (add_next_obs obs)[i]? = obs[i + 1]?) ∧
    (obs ≠ [] → (add_next_obs obs).getLast? = obs.getLast?) := by
  match obs with
  | [] => simp [add_next_obs]
  | x :: xs =>
    refine ⟨by simp [add_next_obs], ?_, ?_⟩
    · intro i hi
      have hi' : i < xs.length := by simpa using hi
      rw [add_next_obs, List.getElem?_append_left hi', List.getElem?_cons_succ]
    · intro _
      rw [add_next_obs, List.getLast?_concat]
      cases xs with
      | nil => rfl
      | cons y ys =>
        simp [List.getLastD_eq_getLast?]
        cases h : (y :: ys).getLast? with
        | none => simp [List.getLast?] at h
        | some z => simp [List.getLast?_cons_cons, h]

/-- C6 witness at the concrete sequence `[1, 2, 3]`. -/
theorem claim_C6_add_next_obs_witness :
    (([1, 2, 3] : List Nat) ≠ []) ∧
    (add_next_obs ([1, 2, 3] : List Nat))[0]? = ([1, 2, 3] : List Nat)[1]? ∧
    (add_next_obs ([1, 2, 3] : List Nat)).getLast? = ([1, 2, 3] : List Nat).getLast? :=
  ⟨by decide, (claim_C6_add_next_obs [1, 2, 3]).2.1 0 (by decide),
    (claim_C6_add_next_obs [1, 2, 3]).2.2 (by decide)⟩


/-- Indicator map over `range L` with an always-true cutoff is all ones. -/
theorem range_map_indicator_all (k L : Nat) (h : L ≤ k) :
    (List.range L).map (fun i => if i < k then (1 : ℚ) else 0) = List.replicate L 1 := by
  induction L with
  | zero => rfl
  | succ n ih =>
      rw [List.range_succ, List.map_append, ih (by omega)]
      have hn : n < k := by omega
      simp [hn, List.replicate_succ']

/-- Indicator map over `range L` with cutoff `k ≤ L` is `k` ones then zeros. -/
theorem range_map_indicator_split (k L : Nat) (h : k ≤ L) :
    (List.range L).map (fun i => if i < k then (1 : ℚ) else 0)
      = List.replicate k 1 ++ List.replicate (L - k) 0 := by
  induction L with
  | zero =>
      have hk : k = 0 := by omega
      subst hk; rfl
  | succ n ih =>
      by_cases hk : k ≤ n
      · rw [List.range_succ, List.map_append, ih hk]
        have hn : ¬ n < k := by omega
        have h2 : n + 1 - k = (n - k) + 1 := by omega
        simp [hn, h2, List.replicate_succ', List.append_assoc]
      · have hk2 : k = n + 1 := by omega
        subst hk2
        rw [range_map_indicator_all (n + 1) (n + 1) (Nat.le_refl _)]
        simp

/-- An episode shorter than the horizon gets an all-zero mask. -/
theorem compute_h_masks_all_zero (horizon L : Nat) (hL : L < horizon) :
    compute_h_masks horizon L = List.replicate L 0 := by
  rw [compute_h_masks, List.eq_replicate_iff]
  refine ⟨by simp, ?_⟩
  intro b hb
  simp only [List.mem_map, List.mem_range] at hb
  obtain ⟨i, hi, hb⟩ := hb
  have : ¬ i + horizon ≤ L := by omega
  simpa [this] using hb.symm

/-- C5 (amended to horizons `h ≥ 1`): `compute_h_masks h` on an episode of
length `L` gives timestep `i` mask 1 iff `i + h ≤ L`, the mask is exactly
`max 0 (L - h + 1)` ones followed by zeros, and an episode shorter than `h`
gets an all-zero mask. -/
theorem claim_C5_compute_h_masks (L horizon : Nat) (hpos : 1 ≤ horizon) :
    compute_h_masks horizon L
      = List.replicate (Int.toNat (max 0 ((L : Int) - (horizon : Int) + 1))) 1
        ++ List.replicate (L - Int.toNat (max 0 ((L : Int) - (horizon : Int) + 1))) 0 ∧
    (∀ i, i < L →
      (compute_h_masks horizon L)[i]? = some (if i + horizon ≤ L then (1 : ℚ) else 0)) ∧
    (L < horizon → compute_h_masks horizon L = List.replicate L 0) := by
  refine ⟨?_, ?_, compute_h_masks_all_zero horizon L⟩
  · by_cases hL : horizon ≤ L
    · have hk : Int.toNat (max 0 ((L : Int) - (horizon : Int) + 1)) = L - horizon + 1 := by
        omega
      rw [hk, compute_h_masks]
      have hcong : ∀ i ∈ List.range L,
          (if i + horizon ≤ L then (1 : ℚ) else 0)
            = (if i < L - horizon + 1 then (1 : ℚ) else 0) := by
        intro i hi
        exact if_congr (by omega) rfl rfl
      rw [List.map_congr_left hcong, range_map_indicator_split (L - horizon + 1) L (by omega)]
    · have hLh : L < horizon := by omega
      have hk : Int.toNat (max 0 ((L : Int) - (horizon : Int) + 1)) = 0 := by omega
      rw [hk, compute_h_masks_all_zero horizon L hLh]
      simp
  · intro i hi
    rw [compute_h_masks]
    simp [List.getElem?_range, hi]

/-- C5 counterexample: at horizon `h = 0` and length `L = 1` the claimed
count formula fails — the mask is `[1]` (one entry) while
`max 0 (L - h + 1) = 2` ones would be needed. -/
theorem claim_C5_counterexample :
    ¬ (compute_h_masks 0 1
        = List.replicate (Int.toNat (max 0 ((1 : Int) - (0 : Int) + 1))) 1
          ++ List.replicate (1 - Int.toNat (max 0 ((1 : Int) - (0 : Int) + 1))) 0) := by
  intro hEq
  have hlen := congrArg List.length hEq
  simp [compute_h_masks] at hlen

/-- C5 witness at `L = 5`, `h = 4` (the spec's end-to-end scenario). -/
theorem claim_C5_witness :
    (1 ≤ 4) ∧
    compute_h_masks 4 5
      = List.replicate (Int.toNat (max 0 ((5 : Int) - (4 : Int) + 1))) 1
        ++ List.replicate (5 - Int.toNat (max 0 ((5 : Int) - (4 : Int) + 1))) 0 :=
  ⟨by decide, (claim_C5_compute_h_masks 5 4 (by decide)).1⟩



/-- Iterating the loop body `n` times advances `counter_agg_iters` by `n`. -/
theorem mpcIter_iterate_counter (horizon : Nat) (sample : Nat → List Epi)
    (n : Nat) (s : MpcState) :
    ((mpcIter horizon sample)^[n] s).counter_agg_iters = s.counter_agg_iters + n := by
  induction n with
  | zero => rfl
  | succ k ih =>
      rw [Function.iterate_succ_apply', mpcIter_counter, ih]
      omega

/-- The while loop runs the body once per missing counter value. -/
theorem mpcLoop_eq_iterate (horizon : Nat) (sample : Nat → List Epi) (iters : Nat) :
    ∀ (n : Nat) (s : MpcState), iters - s.counter_agg_iters = n →
      mpcLoop horizon sample iters s = (mpcIter horizon sample)^[n] s := by
  intro n
  induction n with
  | zero =>
      intro s h
      rw [mpcLoop]
      have hge : ¬ s.counter_agg_iters < iters := by omega
      simp [hge]
  | succ k ih =>
      intro s h
      rw [mpcLoop]
      have hlt : s.counter_agg_iters < iters := by omega
      rw [if_pos hlt, ih (mpcIter horizon sample s) (by rw [mpcIter_counter]; omega),
        ← Function.iterate_succ_apply]

/-- C8: started with `counter_agg_iters = 0`, the aggregation loop executes
its body exactly `iters = num_aggregation_iters` times and then exits with the
counter equal to `iters`; no other stopping condition exists. -/
theorem claim_C8_loop_count (horizon : Nat) (sample : Nat → List Epi) (iters : Nat)
    (s : MpcState) (h0 : s.counter_agg_iters = 0) :
    mpcLoop horizon sample iters s = (mpcIter horizon sample)^[iters] s ∧
    (mpcLoop horizon sample iters s).counter_agg_iters = iters := by
  have he := mpcLoop_eq_iterate horizon sample iters iters s (by omega)
  refine ⟨he, ?_⟩
  rw [he, mpcIter_iterate_counter, h0]
  omega

/-- C8 witness: a 3-iteration run from the initial state. -/
theorem claim_C8_loop_count_witness :
    mpcLoop 1 (fun _ => []) 3 (mpcInit [] 0 1 0 1)
      = (mpcIter 1 (fun _ => []))^[3] (mpcInit [] 0 1 0 1) ∧
    (mpcLoop 1 (fun _ => []) 3 (mpcInit [] 0 1 0 1)).counter_agg_iters = 3 :=
  claim_C8_loop_count 1 (fun _ => []) 3 (mpcInit [] 0 1 0 1) rfl

/-- The loop body never rebinds the four normalization statistics. -/
theorem mpcIter_iterate_stats (horizon : Nat) (sample : Nat → List Epi)
    (n : Nat) (s : MpcState) :
    ((mpcIter horizon sample)^[n] s).mean_obs = s.mean_obs ∧
    ((mpcIter horizon sample)^[n] s).std_obs = s.std_obs ∧
    ((mpcIter horizon sample)^[n] s).mean_acs = s.mean_acs ∧
    ((mpcIter horizon sample)^[n] s).std_acs = s.std_acs := by
  induction n with
  | zero => exact ⟨rfl, rfl, rfl, rfl⟩
  | succ k ih =>
      rw [Function.iterate_succ_apply']
      exact ih

/-- C2: the normalization statistics are fixed across the whole aggregation
run — after any number of iterations they equal the initial ones — and the
episodes collected at every iteration `n + 1` are normalized by applying
exactly the initial statistics via `(x - mean) / std`, never recomputed
(`normalize_obs_and_acs` with given statistics applies them as-is). -/
theorem claim_C2_fixed_stats (horizon : Nat) (sample : Nat → List Epi)
    (s : MpcState) (n : Nat) :
    ((mpcIter horizon sample)^[n] s).mean_obs = s.mean_obs ∧
    ((mpcIter horizon sample)^[n] s).std_obs = s.std_obs ∧
    ((mpcIter horizon sample)^[n] s).mean_acs = s.mean_acs ∧
    ((mpcIter horizon sample)^[n] s).std_acs = s.std_acs ∧
    ((mpcIter horizon sample)^[n + 1] s).traj
      = (let c := ((sample (((mpcIter horizon sample)^[n] s).counter_agg_iters)).map
              Epi.addNextObs |>.map (Epi.computeHMasks horizon)).map
            (fun e => { e with
              obs := e.obs.map (fun x => (x - s.mean_obs) / s.std_obs)
              next_obs := e.next_obs.map (fun x => (x - s.mean_obs) / s.std_obs)
              acs := e.acs.map (fun x => (x - s.mean_acs) / s.std_acs) });
        c ++ c) := by
  obtain ⟨h1, h2, h3, h4⟩ := mpcIter_iterate_stats horizon sample n s
  refine ⟨h1, h2, h3, h4, ?_⟩
  rw [Function.iterate_succ_apply']
  show (mpcIter horizon sample ((mpcIter horizon sample)^[n] s)).traj = _
  simp only [mpcIter, mpcProcessEpis, Epi.normalize, h1, h2, h3, h4]
  rfl


/-- A distinguishable episode standing for the initial random-rollout dataset. -/
def epiInitA : Epi := ⟨[100], [0], [0], [0], [0]⟩

/-- A sampler returning one fixed fresh episode every iteration. -/
def sampleB : Nat → List Epi := fun _ => [⟨[0], [0], [0], [], []⟩]

/-- C1 (code bug, run_mpc.py line 171): the initial episode is in the
trajectory the first `train_dm` call trains on, but after one loop iteration
the trajectory that iteration 2 trains on no longer contains it — line 171
rebinds `traj` to the normalized `curr_traj`, so the accumulated dataset is
discarded instead of grown. -/
theorem claim_C1_initial_dataset_discarded :
    epiInitA ∈ (mpcInit [epiInitA] 0 1 0 1).traj ∧
    epiInitA ∉ (mpcIter 1 sampleB (mpcInit [epiInitA] 0 1 0 1)).traj := by
  constructor
  · simp [mpcInit, epiInitA]
  · norm_num [mpcIter, mpcInit, mpcProcessEpis, sampleB, Epi.addNextObs,
      Epi.computeHMasks, Epi.normalize, add_next_obs, compute_h_masks, epiInitA]

/-- A sampler whose iteration-`k` batch is a single one-step episode with
reward `[1, 3, 2, 5, 4][k]`, realizing the spec's checkpoint scenario. -/
def sampleRewards : Nat → List Epi :=
  fun k => [⟨[0], [0], [[1, 3, 2, 5, 4].getD k 0], [], []⟩]

/-- C3 (amended): across 5 aggregation iterations with mean episode rewards
`[1, 3, 2, 5, 4]`, the "best" checkpoint is written exactly at iterations 1, 2
and 4 (1-indexed) — iteration 1 also saves because its mean reward 1 exceeds
the initial `max_rew = -1e-6`. -/
theorem claim_C3_best_saves :
    ((mpcIter 1 sampleRewards)^[5] (mpcInit [] 0 1 0 1)).best_saves = [1, 2, 4] := by
  norm_num [Function.iterate_succ_apply, mpcIter, mpcInit, mpcProcessEpis, sampleRewards,
    Epi.addNextObs, Epi.computeHMasks, Epi.normalize, add_next_obs, compute_h_masks]

/-- C3 counterexample: in that scenario the set of best-checkpoint
iterations is not `[2, 4]` as claimed. -/
theorem claim_C3_counterexample :
    ((mpcIter 1 sampleRewards)^[5] (mpcInit [] 0 1 0 1)).best_saves ≠ [2, 4] := by
  norm_num [Function.iterate_succ_apply, mpcIter, mpcInit, mpcProcessEpis, sampleRewards,
    Epi.addNextObs, Epi.computeHMasks, Epi.normalize, add_next_obs, compute_h_masks]

/-- C4 counterexample: a rank-0 observation input against a rank-1
observation space is not rejected — `_check_obs_shape` silently inserts two
singleton dimensions and returns normally, so the component neither fails with
`ShapeMismatchError` (no such error exists in the code) nor leaves mismatched
input untouched. -/
theorem claim_C4_counterexample :
    vfFF.check_obs_shape ⟨[], [5]⟩ ≠ (⟨[], [5]⟩ : Tensor) ∧
    (vfFF.check_obs_shape ⟨[], [5]⟩).shape = [1, 1] := by
  have hs : (vfFF.check_obs_shape ⟨[], [5]⟩).shape = [1, 1] := rfl
  refine ⟨fun h => ?_, hs⟩
  rw [h] at hs
  exact absurd hs (by decide)

/-- C4 (amended): whenever an input's rank is below the expected
`len(space.shape) + 1` (feed-forward) or `+ 2` (recurrent), `_check_obs_shape`
and `_check_acs_shape` silently prepend singleton dimensions to make the input
fit, keeping the data, and never raise any error. -/
theorem claim_C4_amended_unsqueeze {N H : Type} (f : BaseSAVfunc N H) (t u : Tensor)
    (ht : t.shape.length < (if f.rnn then 2 else 1) + f.ob_space.length)
    (hu : u.shape.length < (if f.rnn then 2 else 1) + f.ac_space.length) :
    f.check_obs_shape t
      = ⟨List.replicate ((if f.rnn then 2 else 1) + f.ob_space.length - t.shape.length) 1
          ++ t.shape, t.data⟩ ∧
    f.check_acs_shape u
      = ⟨List.replicate ((if f.rnn then 2 else 1) + f.ac_space.length - u.shape.length) 1
          ++ u.shape, u.data⟩ := by
  constructor <;>
    simp [BaseSAVfunc.check_obs_shape, BaseSAVfunc.check_acs_shape, ht, hu, unsqueeze0_iterate]

/-- C4 witness at concrete rank-0 tensors on the feed-forward instance. -/
theorem claim_C4_amended_unsqueeze_witness :
    vfFF.check_obs_shape ⟨[], [5]⟩ = (⟨[1, 1], [5]⟩ : Tensor) ∧
    vfFF.check_acs_shape ⟨[], [7]⟩ = (⟨[1, 1], [7]⟩ : Tensor) :=
  ⟨((claim_C4_amended_unsqueeze vfFF ⟨[], [5]⟩ ⟨[], [7]⟩ (by decide) (by decide)).1).trans rfl,
    ((claim_C4_amended_unsqueeze vfFF ⟨[], [5]⟩ ⟨[], [7]⟩ (by decide) (by decide)).2).trans rfl⟩


end MachinaSpec
